import Mathlib

/-!
Verification of the versioned state-storage and locking engine of the
tf-locker repository (`backend/postgres_store.go`).

The store keeps, per key `(state_id, name)`, a set of version rows
`(version, lock_info, blob)` in a single SQL table.  All five operations
(`UpsertState`, `GetState`, `DeleteState`, `LockState`, `UnlockState`)
read and mutate only the rows of one key, inside one transaction that is
rolled back on error.  We therefore embed the store state for a fixed key
as a `List Row`, and each operation as a function from that state to
`Except StoreErr (List Row)`: an `Except.ok rows2` outcome is the committed
state, an `Except.error e` outcome means the transaction rolled back and
the stored rows are unchanged.
-/

namespace TfLocker

/-- One row of the `states` table, restricted to one key: the columns
`version BIGINT NOT NULL`, `lock_info TEXT` (nullable, `none` = SQL NULL)
and `blob TEXT NOT NULL` (a byte string, embedded as `List Nat`). -/
structure Row where
  version : Nat
  lockInfo : Option String
  blob : List Nat
deriving DecidableEq, Repr

/-- The Go struct `backend.LockInfo`, restricted to the single field the
store ever reads (`li.ID` in `UpsertState`); the remaining fields
(`Operation`, `Info`, `Who`, `Version`, `Created`, `Path`) are decoded but
never consulted by the store, so they are omitted from the embedding. -/
structure LockInfo where
  ID : String
deriving DecidableEq, Repr

/-- The error outcomes of the store operations, classifying the `error`
values the Go code returns: `conflict` is the "Lock ids don't line up"
error of `UpsertState`, `badLockJson` a `json.Unmarshal` failure there,
`alreadyLocked` is `backend.ErrAlreadyLocked`, `notHeld` the "Can't unlock"
error of `UnlockState`, and `internal` the "didn't work" row-count errors. -/
inductive StoreErr where
  | conflict
  | badLockJson
  | alreadyLocked
  | notHeld
  | internal
deriving DecidableEq, Repr

/-- `SELECT ... ORDER BY version DESC LIMIT 1`: the row with the maximum
`version` among the rows of the key, or `none` when the key has no rows. -/
def currentRow : List Row → Option Row
  | [] => none
  | r :: rs =>
    match currentRow rs with
    | none => some r
    | some b => if r.version > b.version then some r else some b

/-- The `version` scanned by the locking read, with the Go convention
`if err == sql.ErrNoRows { version = 0 }`. -/
def prevVersion (rows : List Row) : Nat :=
  match currentRow rows with
  | none => 0
  | some r => r.version

/-- The `lock_info` scanned by the locking read, as `sql.NullString` data:
`none` both when no row exists (the zero `NullString`) and when the stored
column is NULL (`Valid = false`); in both cases the Go `.String` field
is the empty string, recovered here as `(queriedLock rows).getD ""`. -/
def queriedLock (rows : List Row) : Option String :=
  match currentRow rows with
  | none => none
  | some r => r.lockInfo

/- ---------------------------------------------------------------------
JSON decoding of stored lock tokens.

`UpsertState` runs `json.Unmarshal([]byte(queriedLockInfo.String), li)` on
the stored lock-info string and then reads `li.ID`.  `json` is the Go
standard library, not repository code; `unmarshalLockInfo` below models its
documented behaviour on the subset of JSON the store encounters: the
top-level value must be `null` or an object whose member values are
unescaped JSON strings (the lock bodies Terraform posts are flat objects of
string fields).  A missing `"ID"` member leaves the zero value `""`; a
duplicated member keeps the last occurrence, as `encoding/json` does.
Anything else — in particular a stored token that is not JSON at all —
fails to decode, exactly as `json.Unmarshal` fails on malformed input.
--------------------------------------------------------------------- -/

/-- JSON insignificant whitespace. -/
def isWs (c : Char) : Bool :=
  c == ' ' || c == '\t' || c == '\n' || c == '\r'

/-- Drop leading JSON whitespace. -/
def skipWs : List Char → List Char
  | [] => []
  | c :: cs => if isWs c then skipWs cs else c :: cs

/-- Parse the body of a JSON string after its opening quote, up to the
closing quote; escape sequences are outside the modelled subset. -/
def parseStringBody : List Char → Option (List Char × List Char)
  | [] => none
  | c :: cs =>
    if c == '"' then some ([], cs)
    else if c == '\\' then none
    else
      match parseStringBody cs with
      | none => none
      | some (s, rest) => some (c :: s, rest)

/-- Parse one JSON string literal, returning it and the remaining input. -/
def parseJString : List Char → Option (String × List Char)
  | '"' :: cs =>
    match parseStringBody cs with
    | none => none
    | some (s, rest) => some (String.mk s, rest)
  | _ => none

/-- Parse the members of a JSON object after its opening brace, as
`"key" : "value"` pairs separated by commas, consuming the closing brace.
The fuel argument bounds the recursion; callers pass the input length. -/
def parseFields : Nat → List Char → Option (List (String × String) × List Char)
  | 0, _ => none
  | Nat.succ fuel, cs =>
    match parseJString (skipWs cs) with
    | none => none
    | some (k, cs1) =>
      match skipWs cs1 with
      | ':' :: cs2 =>
        match parseJString (skipWs cs2) with
        | none => none
        | some (v, cs3) =>
          match skipWs cs3 with
          | ',' :: cs4 =>
            match parseFields fuel cs4 with
            | none => none
            | some (fs, rest) => some ((k, v) :: fs, rest)
          | '}' :: cs4 => some ([(k, v)], cs4)
          | _ => none
      | _ => none

/-- The value of the last `"ID"` member, or `""` when absent (the zero
value of the Go string field). -/
def lookupID (fs : List (String × String)) : String :=
  match fs.reverse.find? (fun p => p.1 == "ID") with
  | none => ""
  | some p => p.2

/-- Models `json.Unmarshal` into `backend.LockInfo` (see the section
comment above for the modelled subset). -/
def unmarshalLockInfo (s : String) : Option LockInfo :=
  match skipWs s.data with
  | 'n' :: 'u' :: 'l' :: 'l' :: rest =>
    if (skipWs rest).isEmpty then some { ID := "" } else none
  | '{' :: cs =>
    match skipWs cs with
    | '}' :: rest => if (skipWs rest).isEmpty then some { ID := "" } else none
    | cs1 =>
      match parseFields (cs1.length + 1) cs1 with
      | none => none
      | some (fs, rest) =>
        if (skipWs rest).isEmpty then some { ID := lookupID fs } else none
  | _ => none

/- ---------------------------------------------------------------------
The five store operations, translated from `postgres_store.go`.
--------------------------------------------------------------------- -/

/-- The token check of `UpsertState` (lines 107–124): skipped when no row
was scanned or the scanned `lock_info` is NULL or the empty string;
otherwise the stored string is JSON-decoded (failure aborts the write) and
its `ID` field is compared with the caller's `lockInfo`, a mismatch being
the "Lock ids don't line up" conflict. -/
def upsertCheck (queried : Option String) (lockInfo : String) : Except StoreErr Unit :=
  match queried with
  | none => Except.ok ()
  | some s =>
    if s != "" then
      match unmarshalLockInfo s with
      | none => Except.error StoreErr.badLockJson
      | some li =>
        if li.ID != lockInfo then Except.error StoreErr.conflict else Except.ok ()
    else Except.ok ()

/-- The row `UpsertState` inserts (lines 131–140): version is the scanned
version plus one; the `lock_info` column is NULL when the caller's token is
empty and otherwise the scanned `queriedLockInfo.String` (never the
caller's token); the blob is the caller's data. -/
def upsertInsertedRow (rows : List Row) (lockInfo : String) (data : List Nat) : Row :=
  { version := prevVersion rows + 1
  , lockInfo := if lockInfo = "" then none else some ((queriedLock rows).getD "")
  , blob := data }

/-- `postgresStore.UpsertState`: locking-read the current row, run the
token check, insert the new version row, commit.  The insert can never hit
a duplicate `(key, version)` here because `prevVersion rows + 1` exceeds
every stored version, so the `RowsAffected() != 1` branch is unreachable
and the sequential embedding omits it. -/
def UpsertState (rows : List Row) (lockInfo : String) (data : List Nat) :
    Except StoreErr (List Row) :=
  match upsertCheck (queriedLock rows) lockInfo with
  | Except.error e => Except.error e
  | Except.ok () => Except.ok (rows ++ [upsertInsertedRow rows lockInfo data])

/-- `postgresStore.GetState`: `SELECT version, blob ... ORDER BY version
DESC LIMIT 1`; `sql.ErrNoRows` yields `make([]byte, 0)`.  The operation
only reads (its transaction is rolled back), so it is a pure function of
the rows. -/
def GetState (rows : List Row) : List Nat :=
  match currentRow rows with
  | none => []
  | some r => r.blob

/-- `postgresStore.DeleteState`: literally
`ps.UpsertState(stateID, name, "", make([]byte, 0))`. -/
def DeleteState (rows : List Row) : Except StoreErr (List Row) :=
  UpsertState rows "" []

/-- `UPDATE states SET lock_info = $1 WHERE state_id = $2 AND name = $3
AND version = $4`, restricted to the rows of the key. -/
def setLockToken (rows : List Row) (version : Nat) (tok : Option String) : List Row :=
  rows.map fun r => if r.version = version then { r with lockInfo := tok } else r

/-- The number of rows the `lockUpdateStr` UPDATE affects: the rows of the
key carrying exactly the given version. -/
def affectedCount (rows : List Row) (version : Nat) : Nat :=
  (rows.filter fun r => r.version == version).length

/-- The shared tail of `LockState` (lines 269–301): an immediate success
when the scanned `lock_info` is non-NULL and equals the caller's token; the
`ErrAlreadyLocked` failure when it is a different non-empty string;
otherwise the in-place UPDATE of the current row's token, which must affect
exactly one row ("locking didn't work" otherwise). -/
def lockUpdate (rows : List Row) (version : Nat) (queried : Option String)
    (lockInfo : String) : Except StoreErr (List Row) :=
  if queried.isSome && queried.getD "" == lockInfo then Except.ok rows
  else if queried.getD "" != "" then Except.error StoreErr.alreadyLocked
  else if affectedCount rows version == 1 then
    Except.ok (setLockToken rows version (some lockInfo))
  else Except.error StoreErr.internal

/-- `postgresStore.LockState`: locking-read the current row; when the key
has no rows, insert a placeholder row at version 1 carrying the caller's
token and an empty blob, commit, and re-read in a second transaction; then
run the shared token check/update.  The inner `none` branch models the
re-read failing, which cannot happen after the insert. -/
def LockState (rows : List Row) (lockInfo : String) : Except StoreErr (List Row) :=
  match currentRow rows with
  | none =>
    let rows1 := rows ++ [{ version := 1, lockInfo := some lockInfo, blob := [] }]
    match currentRow rows1 with
    | none => Except.error StoreErr.internal
    | some r1 => lockUpdate rows1 r1.version r1.lockInfo lockInfo
  | some r => lockUpdate rows r.version r.lockInfo lockInfo

/-- `postgresStore.UnlockState`: locking-read the current row; fail with
the "Can't unlock ... somebody else holds the lock" error unless the
scanned `lock_info` is non-NULL and equals the caller's token verbatim;
otherwise UPDATE the current row's `lock_info` to NULL (exactly one row
must be affected). -/
def UnlockState (rows : List Row) (lockInfo : String) : Except StoreErr (List Row) :=
  if !(queriedLock rows).isSome || (queriedLock rows).getD "" != lockInfo then
    Except.error StoreErr.notHeld
  else if affectedCount rows (prevVersion rows) == 1 then
    Except.ok (setLockToken rows (prevVersion rows) none)
  else Except.error StoreErr.internal

/-- The committed store state after an operation: an `ok` result is the
new row set, an error rolls the transaction back and keeps the old rows. -/
def runState (rows : List Row) (res : Except StoreErr (List Row)) : List Row :=
  match res with
  | Except.error _ => rows
  | Except.ok rows2 => rows2

/-- Well-formed per-key states: the table's primary key makes `version`
unique among the rows of one key. -/
def WF (rows : List Row) : Prop :=
  (rows.map Row.version).Nodup

instance : DecidablePred WF := fun rows => by
  unfold WF; infer_instance

/- ---------------------------------------------------------------------
Helper lemmas about the embedding.
--------------------------------------------------------------------- -/

theorem currentRow_eq_none (rows : List Row) : currentRow rows = none ↔ rows = [] := by
  cases rows with
  | nil => simp [currentRow]
  | cons r rs =>
    simp only [currentRow]
    cases h : currentRow rs with
    | none => simp
    | some b => by_cases hv : r.version > b.version <;> simp [hv]

theorem currentRow_mem : ∀ {rows : List Row} {a : Row}, currentRow rows = some a → a ∈ rows := by
  intro rows
  induction rows with
  | nil => intro a h; simp [currentRow] at h
  | cons r rs ih =>
    intro a h
    simp only [currentRow] at h
    cases hc : currentRow rs with
    | none => rw [hc] at h; simp at h; simp [h]
    | some b =>
      rw [hc] at h
      have h2 : (if r.version > b.version then some r else some b) = some a := h
      by_cases hv : r.version > b.version
      · rw [if_pos hv] at h2; simp at h2; simp [h2]
      · rw [if_neg hv] at h2; simp at h2
        exact List.mem_cons_of_mem r (h2 ▸ ih hc)

theorem currentRow_max : ∀ {rows : List Row} {a : Row}, currentRow rows = some a →
    ∀ r ∈ rows, r.version ≤ a.version := by
  intro rows
  induction rows with
  | nil => intro a h; simp [currentRow] at h
  | cons r rs ih =>
    intro a h
    simp only [currentRow] at h
    cases hc : currentRow rs with
    | none =>
      rw [hc] at h; simp at h
      have hnil : rs = [] := (currentRow_eq_none rs).mp hc
      subst hnil; subst h; simp
    | some b =>
      rw [hc] at h
      have h2 : (if r.version > b.version then some r else some b) = some a := h
      by_cases hv : r.version > b.version
      · rw [if_pos hv] at h2; simp at h2; subst h2
        intro x hx
        rcases List.mem_cons.mp hx with rfl | hx2
        · exact le_refl _
        · exact le_trans (ih hc x hx2) (le_of_lt hv)
      · rw [if_neg hv] at h2; simp at h2; subst h2
        intro x hx
        rcases List.mem_cons.mp hx with rfl | hx2
        · exact le_of_not_lt hv
        · exact ih hc x hx2

theorem version_inj : ∀ {rows : List Row}, WF rows → ∀ {a b : Row},
    a ∈ rows → b ∈ rows → a.version = b.version → a = b := by
  intro rows
  induction rows with
  | nil => intro _ a b ha; cases ha
  | cons c cs ih =>
    intro hwf a b ha hb hv
    have hnd := hwf
    rw [WF, List.map_cons, List.nodup_cons] at hnd
    obtain ⟨hnotin, hnd2⟩ := hnd
    rcases List.mem_cons.mp ha with rfl | ha2 <;> rcases List.mem_cons.mp hb with rfl | hb2
    · rfl
    · exfalso; apply hnotin; rw [hv]; exact List.mem_map_of_mem Row.version hb2
    · exfalso; apply hnotin; rw [← hv]; exact List.mem_map_of_mem Row.version ha2
    · exact ih hnd2 ha2 hb2 hv

theorem affectedCount_eq_one : ∀ {rows : List Row}, WF rows → ∀ {r : Row},
    r ∈ rows → affectedCount rows r.version = 1 := by
  intro rows
  induction rows with
  | nil => intro _ r hr; cases hr
  | cons c cs ih =>
    intro hwf r hr
    have hnd := hwf
    rw [WF, List.map_cons, List.nodup_cons] at hnd
    obtain ⟨hnotin, hnd2⟩ := hnd
    rcases List.mem_cons.mp hr with rfl | hr2
    · have htail : (cs.filter fun x => x.version == r.version) = [] := by
        rw [List.filter_eq_nil_iff]
        intro x hx
        simp only [beq_iff_eq]
        intro hxv
        exact hnotin (hxv ▸ List.mem_map_of_mem Row.version hx)
      simp [affectedCount, List.filter_cons, htail]
    · have hcv : (c.version == r.version) = false := by
        simp only [beq_eq_false_iff_ne, ne_eq]
        intro hcv
        exact hnotin (hcv ▸ List.mem_map_of_mem Row.version hr2)
      have htl := ih hnd2 hr2
      simp only [affectedCount, List.filter_cons, hcv] at htl ⊢
      simpa using htl

theorem setLockToken_version_blob (rows : List Row) (v : Nat) (tok : Option String) :
    (setLockToken rows v tok).map (fun x => (x.version, x.blob))
      = rows.map fun x => (x.version, x.blob) := by
  induction rows with
  | nil => rfl
  | cons c cs ih =>
    simp only [setLockToken, List.map_cons] at ih ⊢
    rw [ih]
    by_cases h : c.version = v <;> simp [h]

/-- A well-formed JSON lock body whose `ID` field is `"x"`, as stored by
`LockState` when a caller posts it. -/
def jsonTokX : String := "\x7b\"ID\":\"x\"\x7d"

/-- A well-formed JSON lock body whose `ID` field is `"y"`. -/
def jsonTokY : String := "\x7b\"ID\":\"y\"\x7d"

/- ---------------------------------------------------------------------
Claim theorems.
--------------------------------------------------------------------- -/

/-- Claim C1, counterexample.  The claim says a `Write` whose supplied
token does not match the held token always fails with a conflict and
inserts nothing.  Here the held token is the JSON body `jsonTokX` and the
supplied token `"x"` differs from it, yet the write succeeds and inserts a
new version row, because `UpsertState` compares the supplied token with the
`ID` field parsed out of the stored token, not with the stored token
itself. -/
theorem upsert_locked_mismatch_cex :
    UpsertState [{ version := 1, lockInfo := some jsonTokX, blob := [] }] "x" [7]
        = Except.ok [{ version := 1, lockInfo := some jsonTokX, blob := [] },
                     { version := 2, lockInfo := some jsonTokX, blob := [7] }]
    ∧ "x" ≠ jsonTokX :=
  ⟨rfl, by decide⟩

/-- Claim C1, amended: on a key whose current row carries a non-empty
token string, a `Write` fails with the conflict error and inserts no new
version row (the transaction rolls back, leaving the rows unchanged)
exactly when the stored token parses as a JSON `LockInfo` whose `ID` field
differs from the supplied token; a stored token that fails to parse aborts
the write with a JSON error, not a conflict. -/
theorem upsert_locked_mismatch (rows : List Row) (r : Row) (s t : String) (d : List Nat)
    (hc : currentRow rows = some r) (hl : r.lockInfo = some s) (hs : s ≠ "") :
    (∀ li, unmarshalLockInfo s = some li → li.ID ≠ t →
        UpsertState rows t d = Except.error StoreErr.conflict
        ∧ runState rows (UpsertState rows t d) = rows)
    ∧ (unmarshalLockInfo s = none →
        UpsertState rows t d = Except.error StoreErr.badLockJson
        ∧ runState rows (UpsertState rows t d) = rows) := by
  have hq : queriedLock rows = some s := by simp [queriedLock, hc, hl]
  constructor
  · intro li hu hne
    have h1 : UpsertState rows t d = Except.error StoreErr.conflict := by
      simp [UpsertState, upsertCheck, hq, bne_iff_ne, hs, hu, hne]
    exact ⟨h1, by simp [runState, h1]⟩
  · intro hu
    have h1 : UpsertState rows t d = Except.error StoreErr.badLockJson := by
      simp [UpsertState, upsertCheck, hq, bne_iff_ne, hs, hu]
    exact ⟨h1, by simp [runState, h1]⟩

/-- Claim C1, witness: the amended theorem applied to a key locked with a
JSON token whose `ID` is `"y"` and a write supplying `"x"`. -/
theorem upsert_locked_mismatch_witness :
    UpsertState [{ version := 1, lockInfo := some jsonTokY, blob := [] }] "x" [7]
        = Except.error StoreErr.conflict
    ∧ runState [{ version := 1, lockInfo := some jsonTokY, blob := [] }]
        (UpsertState [{ version := 1, lockInfo := some jsonTokY, blob := [] }] "x" [7])
        = [{ version := 1, lockInfo := some jsonTokY, blob := [] }] :=
  (upsert_locked_mismatch [{ version := 1, lockInfo := some jsonTokY, blob := [] }]
      _ jsonTokY "x" [7] rfl rfl (by decide)).1 { ID := "y" } (by decide) (by decide)

/-- Claim C2, counterexample.  The claim says every operation authorizes
by exact string equality of the stored and supplied tokens, parsing
neither.  `UpsertState` refutes it in both directions: with stored token
`jsonTokX` and supplied token `"x"` the strings differ yet the write is
authorized, and with stored token `"a"` and the identical supplied token
`"a"` the write fails, because the stored token is JSON-parsed before the
comparison. -/
theorem token_comparison_cex :
    (∃ rows2, UpsertState [{ version := 1, lockInfo := some jsonTokX, blob := [] }] "x" [7]
        = Except.ok rows2)
    ∧ jsonTokX ≠ "x"
    ∧ UpsertState [{ version := 1, lockInfo := some "a", blob := [] }] "a" [7]
        = Except.error StoreErr.badLockJson :=
  ⟨⟨_, rfl⟩, by decide, rfl⟩

/-- Claim C2, amended: `LockState` and `UnlockState` authorize by exact
string equality of the stored and the caller-supplied token, treating both
as opaque strings; `UpsertState` instead parses the stored token as a JSON
`LockInfo` and authorizes exactly when its `ID` field equals the supplied
token. -/
theorem token_comparison (rows : List Row) (r : Row) (s t : String)
    (hc : currentRow rows = some r) (hl : r.lockInfo = some s) :
    (s ≠ "" → (LockState rows t = Except.ok rows ↔ s = t))
    ∧ (WF rows → ((∃ rows2, UnlockState rows t = Except.ok rows2) ↔ s = t))
    ∧ (∀ d li, s ≠ "" → unmarshalLockInfo s = some li →
        ((∃ rows2, UpsertState rows t d = Except.ok rows2) ↔ li.ID = t)) := by
  have hq : queriedLock rows = some s := by simp [queriedLock, hc, hl]
  refine ⟨?_, ?_, ?_⟩
  · intro hs
    have hL : LockState rows t = lockUpdate rows r.version (some s) t := by
      simp [LockState, hc, hl]
    by_cases hst : s = t
    · subst hst
      simp [hL, lockUpdate]
    · have herr : lockUpdate rows r.version (some s) t
          = Except.error StoreErr.alreadyLocked := by
        simp [lockUpdate, hst, bne_iff_ne, hs]
      rw [hL, herr]
      simp [hst]
  · intro hwf
    by_cases hst : s = t
    · subst hst
      have hv : prevVersion rows = r.version := by simp [prevVersion, hc]
      have hcount : affectedCount rows (prevVersion rows) = 1 := by
        rw [hv]; exact affectedCount_eq_one hwf (currentRow_mem hc)
      have hU : UnlockState rows s
          = Except.ok (setLockToken rows (prevVersion rows) none) := by
        simp [UnlockState, hq, hcount]
      simp [hU]
    · have hU : UnlockState rows t = Except.error StoreErr.notHeld := by
        simp [UnlockState, hq, bne_iff_ne, hst]
      simp [hU, hst]
  · intro d li hs hu
    by_cases hid : li.ID = t
    · have hok : UpsertState rows t d
          = Except.ok (rows ++ [upsertInsertedRow rows t d]) := by
        simp [UpsertState, upsertCheck, hq, bne_iff_ne, hs, hu, hid]
      simp [hok, hid]
    · have herr : UpsertState rows t d = Except.error StoreErr.conflict := by
        simp [UpsertState, upsertCheck, hq, bne_iff_ne, hs, hu, hid]
      simp [herr, hid]

/-- Claim C2, witness: the amended theorem applied to a key locked with
the plain token `"a"` and a `LockState` call supplying the identical
string, which succeeds by verbatim comparison. -/
theorem token_comparison_witness :
    LockState [{ version := 1, lockInfo := some "a", blob := [] }] "a"
        = Except.ok [{ version := 1, lockInfo := some "a", blob := [] }] :=
  ((token_comparison [{ version := 1, lockInfo := some "a", blob := [] }]
      _ "a" "a" rfl rfl).1 (by decide)).mpr rfl

/-- Claim C3: the version of a key starts at 0 when it has no row, every
successful `UpsertState` appends exactly one row whose version is the
previous current version plus one, and a successful `LockState` on a
rowless key appends exactly one row at version `0 + 1` carrying the
caller's token and an empty blob. -/
theorem version_increment :
    (∀ rows : List Row, currentRow rows = none → prevVersion rows = 0)
    ∧ (∀ (rows : List Row) (t : String) (d : List Nat) (rows2 : List Row),
        UpsertState rows t d = Except.ok rows2 →
        rows2 = rows ++ [upsertInsertedRow rows t d]
        ∧ (upsertInsertedRow rows t d).version = prevVersion rows + 1)
    ∧ (∀ (rows : List Row) (t : String) (rows2 : List Row),
        currentRow rows = none → LockState rows t = Except.ok rows2 →
        rows2 = rows ++ [{ version := prevVersion rows + 1
                         , lockInfo := some t, blob := [] }]) := by
  refine ⟨?_, ?_, ?_⟩
  · intro rows h; simp [prevVersion, h]
  · intro rows t d rows2 h
    cases hch : upsertCheck (queriedLock rows) t with
    | error e => simp [UpsertState, hch] at h
    | ok u =>
      cases u
      simp [UpsertState, hch] at h
      exact ⟨h.symm, rfl⟩
  · intro rows t rows2 hnone h
    have hrows : rows = [] := (currentRow_eq_none rows).mp hnone
    subst hrows
    have hL : LockState [] t
        = Except.ok [{ version := 1, lockInfo := some t, blob := [] }] := by
      simp [LockState, currentRow, lockUpdate, beq_self_eq_true]
    rw [hL] at h
    simp at h
    exact h.symm

/-- Claim C3, witness: the theorem applied to an `UpsertState` and a
`LockState` on the rowless key. -/
theorem version_increment_witness :
    ([{ version := 1, lockInfo := some "", blob := [2] }] : List Row)
        = [] ++ [upsertInsertedRow [] "x" [2]]
    ∧ ([{ version := 1, lockInfo := some "t", blob := [] }] : List Row)
        = [] ++ [{ version := prevVersion [] + 1, lockInfo := some "t", blob := [] }] :=
  ⟨(version_increment.2.1 [] "x" [2] _ rfl).1,
   version_increment.2.2 [] "t" _ rfl rfl⟩

/-- Claim C4, counterexample.  The claim says the row inserted by a
successful `Write` carries the token that was supplied — no token when the
write was unlocked.  On an unlocked key (current row's `lock_info` is
NULL) a write supplying the non-empty token `"x"` succeeds, but the
inserted row carries the non-NULL empty string `some ""` — neither "no
token" (NULL) nor the supplied token. -/
theorem upsert_inserted_token_cex :
    UpsertState [{ version := 1, lockInfo := none, blob := [] }] "x" [7]
        = Except.ok [{ version := 1, lockInfo := none, blob := [] },
                     { version := 2, lockInfo := some "", blob := [7] }]
    ∧ (some "" : Option String) ≠ none
    ∧ (some "" : Option String) ≠ some "x" :=
  ⟨rfl, by decide, by decide⟩

/-- Claim C4, amended: every successful `UpsertState` appends the row at
version+1 carrying the caller's blob; its `lock_info` is NULL exactly when
the supplied token is empty, and otherwise is the lock-info string read
from the previous current row — so the existing matching token is carried
forward when the key was locked and a non-empty token was supplied, while
an unlocked write with a non-empty token stores the queried empty string
rather than the supplied token. -/
theorem upsert_inserted_token (rows : List Row) (t : String) (d : List Nat) (rows2 : List Row)
    (h : UpsertState rows t d = Except.ok rows2) :
    rows2 = rows ++ [upsertInsertedRow rows t d]
    ∧ (upsertInsertedRow rows t d).blob = d
    ∧ (t = "" → (upsertInsertedRow rows t d).lockInfo = none)
    ∧ (∀ r s, currentRow rows = some r → r.lockInfo = some s → t ≠ "" →
        (upsertInsertedRow rows t d).lockInfo = some s) := by
  refine ⟨?_, rfl, ?_, ?_⟩
  · cases hch : upsertCheck (queriedLock rows) t with
    | error e => simp [UpsertState, hch] at h
    | ok u =>
      cases u
      simp [UpsertState, hch] at h
      exact h.symm
  · intro ht; simp [upsertInsertedRow, ht]
  · intro r s hc hl ht
    simp [upsertInsertedRow, queriedLock, hc, hl, ht]

/-- Claim C4, witness: the amended theorem applied to a key locked with
`jsonTokY` and a successful write supplying the matching `"y"`, whose
inserted row carries the stored token forward. -/
theorem upsert_inserted_token_witness :
    (upsertInsertedRow [{ version := 1, lockInfo := some jsonTokY, blob := [] }]
        "y" [7]).lockInfo = some jsonTokY :=
  (upsert_inserted_token [{ version := 1, lockInfo := some jsonTokY, blob := [] }]
      "y" [7] _ rfl).2.2.2 _ jsonTokY rfl rfl (by decide)

/-- Claim C5: acquiring a lock on a key whose current row holds the
non-empty token `t1` with a different token `t2` fails with
`ErrAlreadyLocked`, and the rolled-back transaction leaves the rows — in
particular the stored token `t1` — unchanged. -/
theorem acquire_mismatch (rows : List Row) (r : Row) (t1 t2 : String)
    (hc : currentRow rows = some r) (hl : r.lockInfo = some t1)
    (h1 : t1 ≠ "") (hne : t2 ≠ t1) :
    LockState rows t2 = Except.error StoreErr.alreadyLocked
    ∧ runState rows (LockState rows t2) = rows := by
  have hst : t1 ≠ t2 := fun h => hne h.symm
  have h2 : LockState rows t2 = Except.error StoreErr.alreadyLocked := by
    simp [LockState, hc, hl, lockUpdate, hst, bne_iff_ne, h1]
  exact ⟨h2, by simp [runState, h2]⟩

/-- Claim C5, witness. -/
theorem acquire_mismatch_witness :
    LockState [{ version := 1, lockInfo := some "a", blob := [] }] "b"
        = Except.error StoreErr.alreadyLocked
    ∧ runState [{ version := 1, lockInfo := some "a", blob := [] }]
        (LockState [{ version := 1, lockInfo := some "a", blob := [] }] "b")
        = [{ version := 1, lockInfo := some "a", blob := [] }] :=
  acquire_mismatch [{ version := 1, lockInfo := some "a", blob := [] }]
    _ "a" "b" rfl rfl (by decide) (by decide)

/-- Claim C6: acquiring a lock with the token the current row already
holds succeeds immediately and returns the rows unchanged — lock
acquisition is idempotent for the holder. -/
theorem acquire_idempotent (rows : List Row) (r : Row) (t : String)
    (hc : currentRow rows = some r) (hl : r.lockInfo = some t) :
    LockState rows t = Except.ok rows := by
  simp [LockState, hc, hl, lockUpdate, beq_self_eq_true]

/-- Claim C6, witness. -/
theorem acquire_idempotent_witness :
    LockState [{ version := 1, lockInfo := some "a", blob := [] }] "a"
        = Except.ok [{ version := 1, lockInfo := some "a", blob := [] }] :=
  acquire_idempotent [{ version := 1, lockInfo := some "a", blob := [] }] _ "a" rfl rfl

/-- Claim C7: on a well-formed key state, `UnlockState` succeeds exactly
when the current row exists and stores the caller's token verbatim; on
success only the current row's `lock_info` is cleared to NULL, every row's
version and blob staying unchanged; when the key has no row, or the
current row holds no token, it fails with the not-held error. -/
theorem unlock_spec (rows : List Row) (t : String) (hwf : WF rows) :
    ((∃ rows2, UnlockState rows t = Except.ok rows2)
        ↔ ∃ r, currentRow rows = some r ∧ r.lockInfo = some t)
    ∧ (∀ r, currentRow rows = some r → r.lockInfo = some t →
        UnlockState rows t = Except.ok (setLockToken rows r.version none)
        ∧ (setLockToken rows r.version none).map (fun x => (x.version, x.blob))
            = rows.map fun x => (x.version, x.blob))
    ∧ (currentRow rows = none → UnlockState rows t = Except.error StoreErr.notHeld)
    ∧ (∀ r, currentRow rows = some r → r.lockInfo = none →
        UnlockState rows t = Except.error StoreErr.notHeld) := by
  cases hc : currentRow rows with
  | none =>
    have hq : queriedLock rows = none := by simp [queriedLock, hc]
    have hU : UnlockState rows t = Except.error StoreErr.notHeld := by
      simp [UnlockState, hq]
    refine ⟨?_, ?_, fun _ => hU, ?_⟩
    · simp [hU, hc]
    · intro r hr; cases hr
    · intro r hr; cases hr
  | some r0 =>
    cases hl0 : r0.lockInfo with
    | none =>
      have hq : queriedLock rows = none := by simp [queriedLock, hc, hl0]
      have hU : UnlockState rows t = Except.error StoreErr.notHeld := by
        simp [UnlockState, hq]
      refine ⟨?_, ?_, ?_, fun r hr hrl => hU⟩
      · simp [hU, hl0]
      · intro r hr hrl
        cases hr
        rw [hl0] at hrl; cases hrl
      · intro h; cases h
    | some s =>
      have hq : queriedLock rows = some s := by simp [queriedLock, hc, hl0]
      by_cases hst : s = t
      · subst hst
        have hv : prevVersion rows = r0.version := by simp [prevVersion, hc]
        have hcount : affectedCount rows (prevVersion rows) = 1 := by
          rw [hv]; exact affectedCount_eq_one hwf (currentRow_mem hc)
        have hU : UnlockState rows s
            = Except.ok (setLockToken rows (prevVersion rows) none) := by
          simp [UnlockState, hq, hcount]
        refine ⟨?_, ?_, ?_, ?_⟩
        · simp [hU, hl0]
        · intro r hr hrl
          cases hr
          rw [hv] at hU
          exact ⟨hU, setLockToken_version_blob _ _ _⟩
        · intro h; cases h
        · intro r hr hrl
          cases hr
          rw [hl0] at hrl; cases hrl
      · have hU : UnlockState rows t = Except.error StoreErr.notHeld := by
          simp [UnlockState, hq, bne_iff_ne, hst]
        refine ⟨?_, ?_, ?_, fun r hr hrl => hU⟩
        · simp [hU, hl0, hst]
        · intro r hr hrl
          cases hr
          rw [hl0] at hrl
          exact absurd (Option.some.inj hrl) hst
        · intro h; cases h

/-- Claim C7, witness: releasing the held token `"a"` clears the lock and
keeps version and blob. -/
theorem unlock_spec_witness :
    UnlockState [{ version := 1, lockInfo := some "a", blob := [5] }] "a"
        = Except.ok [{ version := 1, lockInfo := none, blob := [5] }] :=
  ((unlock_spec [{ version := 1, lockInfo := some "a", blob := [5] }] "a"
      (by decide)).2.1 { version := 1, lockInfo := some "a", blob := [5] } rfl rfl).1

/-- Claim C8: `DeleteState` is extensionally the `UpsertState` with the
empty token and the empty blob — identical results on every state. -/
theorem delete_is_empty_write : ∀ rows : List Row, DeleteState rows = UpsertState rows "" [] :=
  fun _ => rfl

/-- Claim C9: `GetState` returns the blob of the row with the maximum
version of a well-formed state, and the empty blob on a rowless key —
in particular a `Read` before any `Write` returns the empty blob.  The
operation is a pure function of the rows: the Go code only performs a
`SELECT` inside a transaction that is rolled back, so it never modifies
stored state. -/
theorem read_current_blob :
    (∀ (rows : List Row) (r : Row), WF rows → r ∈ rows →
        (∀ x ∈ rows, x.version ≤ r.version) → GetState rows = r.blob)
    ∧ GetState [] = [] := by
  constructor
  · intro rows r hwf hr hmax
    cases hc : currentRow rows with
    | none =>
      rw [(currentRow_eq_none rows).mp hc] at hr
      cases hr
    | some a =>
      have ha : a ∈ rows := currentRow_mem hc
      have h1 : r.version ≤ a.version := currentRow_max hc r hr
      have h2 : a.version ≤ r.version := hmax a ha
      have hra : a = r := version_inj hwf ha hr (le_antisymm h2 h1)
      simp [GetState, hc, hra]
  · rfl

/-- Claim C9, witness. -/
theorem read_current_blob_witness :
    GetState [{ version := 3, lockInfo := none, blob := [9] },
              { version := 1, lockInfo := none, blob := [2] }] = [9] :=
  read_current_blob.1 _ { version := 3, lockInfo := none, blob := [9] }
    (by decide) (by decide) (by decide)

/-- Claim C10: when the current row holds no lock token (NULL or the
empty string), an `UpsertState` supplying a non-empty token succeeds but
the inserted row stores the previously queried lock-info string — the
empty string — rather than the supplied token, so a write never makes the
writer the lock holder. -/
theorem unlocked_write_never_acquires (rows : List Row) (r : Row) (t : String) (d : List Nat)
    (hc : currentRow rows = some r) (hl : r.lockInfo = none ∨ r.lockInfo = some "")
    (ht : t ≠ "") :
    UpsertState rows t d
        = Except.ok (rows ++ [{ version := prevVersion rows + 1
                              , lockInfo := some "", blob := d }])
    ∧ (some "" : Option String) ≠ some t := by
  have hch : upsertCheck (queriedLock rows) t = Except.ok () := by
    rcases hl with h | h <;> simp [upsertCheck, queriedLock, hc, h]
  have hrow : upsertInsertedRow rows t d
      = { version := prevVersion rows + 1, lockInfo := some "", blob := d } := by
    rcases hl with h | h <;> simp [upsertInsertedRow, queriedLock, hc, h, ht]
  refine ⟨by simp [UpsertState, hch, hrow], ?_⟩
  intro h
  exact ht (Option.some.inj h).symm

/-- Claim C10, witness. -/
theorem unlocked_write_never_acquires_witness :
    UpsertState [{ version := 1, lockInfo := none, blob := [] }] "x" [3]
        = Except.ok [{ version := 1, lockInfo := none, blob := [] },
                     { version := 2, lockInfo := some "", blob := [3] }]
    ∧ (some "" : Option String) ≠ some "x" :=
  unlocked_write_never_acquires [{ version := 1, lockInfo := none, blob := [] }]
    _ "x" [3] rfl (Or.inl rfl) (by decide)

end TfLocker
